import Mathlib

set_option linter.unusedVariables false

/-!
Shallow embedding of the bid-only backtest engine of
`src/pipelines/backtest/backtest_bidonly.py`.

Python floats are modelled as exact rationals (ℚ); the `self.positions`
dict (keyed by `market_id`, insertion ordered) is modelled as an
insertion-ordered list of `MarketPosition`; a Python `ZeroDivisionError`
from float division is modelled as an `Except.error` value.
-/

namespace Bidonly

/-- The `StrategyParams` dataclass, with its default field values. -/
structure StrategyParams where
  max_bid_price : ℚ := 1/2
  min_sell_price : ℚ := 1/2
  exit_window_sec : Int := 900
  position_scale : ℚ := 1/100
  starting_capital : ℚ := 10000
  deriving Repr, DecidableEq

/-- One trade record, with the dict keys `process_trade` reads.
`winning_token` models `trade.get(winning_token)`: `none` when absent. -/
structure Trade where
  timestamp : Int
  market_id : Int
  nonusdc_side : String
  price : ℚ
  time_to_close_sec : Int
  crypto_type : String
  trader_side : String
  trader_role : String
  token_amount : ℚ
  winning_token : Option String := none
  deriving Repr, DecidableEq

/-- The `Position` dataclass: accumulators for a single token side. -/
structure Position where
  token_amount : ℚ := 0
  cost_basis : ℚ := 0
  sell_proceeds : ℚ := 0
  tokens_sold : ℚ := 0
  deriving Repr, DecidableEq

/-- The `Position.tokens_held` property. -/
def Position.tokens_held (p : Position) : ℚ :=
  p.token_amount - p.tokens_sold

/-- The `Position.avg_buy_price` property (0 when no tokens bought). -/
def Position.avg_buy_price (p : Position) : ℚ :=
  if p.token_amount = 0 then 0 else p.cost_basis / p.token_amount

/-- The `MarketPosition` dataclass. -/
structure MarketPosition where
  market_id : Int
  crypto_type : String
  token1 : Position := {}
  token2 : Position := {}
  winning_token : Option String := none
  deriving Repr, DecidableEq

/-- One entry of the dict `process_trade` returns for an accepted trade. -/
structure TradeLog where
  timestamp : Int
  market_id : Int
  token : String
  action : String
  price : ℚ
  amount : ℚ
  usd : ℚ
  crypto_type : String
  deriving Repr, DecidableEq

/-- Hook `BidOnlyBacktest.should_buy`: unconditional pass-through. -/
def should_buy (price : ℚ) (time_to_close : Int) : Bool :=
  true

/-- Hook `BidOnlyBacktest.should_sell`: sell whenever tokens are held. -/
def should_sell (price : ℚ) (time_to_close : Int) (tokens_held : ℚ) : Bool :=
  decide (tokens_held > 0)

/-- The BUY/SELL accumulator update of `BidOnlyBacktest.process_trade`,
restricted to the targeted `Position`: returns the updated position and
the executed amount (`none` when no action is taken). -/
def tokenStep (scale : ℚ) (t : Trade) (tp : Position) : Position × Option ℚ :=
  if t.trader_side = "BUY" then
    let amount := t.token_amount * scale
    if 0 < amount then
      ({ tp with token_amount := tp.token_amount + amount,
                 cost_basis := tp.cost_basis + amount * t.price }, some amount)
    else (tp, none)
  else if t.trader_side = "SELL" then
    let amount := min tp.tokens_held (t.token_amount * scale)
    if 0 < amount then
      ({ tp with tokens_sold := tp.tokens_sold + amount,
                 sell_proceeds := tp.sell_proceeds + amount * t.price }, some amount)
    else (tp, none)
  else (tp, none)

/-- The dict returned by `process_trade` for an executed trade. -/
def mkLog (t : Trade) (amount : ℚ) : TradeLog :=
  { timestamp := t.timestamp, market_id := t.market_id,
    token := t.nonusdc_side, action := t.trader_side,
    price := t.price, amount := amount, usd := amount * t.price,
    crypto_type := t.crypto_type }

/-- Effect of `process_trade` on a single `MarketPosition`: dispatch on
`nonusdc_side` (`token1` selects `pos.token1`, anything else selects
`pos.token2`, as in the if/else of the source). -/
def marketStep (scale : ℚ) (t : Trade) (pos : MarketPosition) :
    MarketPosition × Option TradeLog :=
  if t.nonusdc_side = "token1" then
    let r := tokenStep scale t pos.token1
    ({ pos with token1 := r.1 }, r.2.map (mkLog t))
  else
    let r := tokenStep scale t pos.token2
    ({ pos with token2 := r.1 }, r.2.map (mkLog t))

/-- Dict lookup `self.positions[market_id]` on the ordered list model. -/
def findMarket : List MarketPosition → Int → Option MarketPosition
  | [], _ => none
  | p :: ps, mid => if p.market_id = mid then some p else findMarket ps mid

/-- In-place mutation of the market stored under `mid`. -/
def updateMarketList (f : MarketPosition → MarketPosition × Option TradeLog) :
    List MarketPosition → Int → List MarketPosition × Option TradeLog
  | [], _ => ([], none)
  | p :: ps, mid =>
    if p.market_id = mid then
      let r := f p
      (r.1 :: ps, r.2)
    else
      let r := updateMarketList f ps mid
      (p :: r.1, r.2)

/-- The `MarketPosition(...)` constructed on first sight of a market:
`winning_token` is captured from this first trade. -/
def newMarket (t : Trade) : MarketPosition :=
  { market_id := t.market_id, crypto_type := t.crypto_type,
    winning_token := t.winning_token }

/-- Model of the lazy initialization branch of `process_trade`;
insertion appends at the end (Python dict insertion order). -/
def ensureMarket (ps : List MarketPosition) (t : Trade) : List MarketPosition :=
  if (findMarket ps t.market_id).isSome then ps else ps ++ [newMarket t]

/-- The full effect of `process_trade` on the positions store. -/
def positionsStep (scale : ℚ) (t : Trade) (ps : List MarketPosition) :
    List MarketPosition × Option TradeLog :=
  updateMarketList (marketStep scale t) (ensureMarket ps t) t.market_id

/-- The `BidOnlyBacktest` engine state. -/
structure Backtest where
  params : StrategyParams
  positions : List MarketPosition := []
  trades_log : List TradeLog := []
  deriving Repr, DecidableEq

/-- Constructor `BidOnlyBacktest.__init__`. -/
def Backtest.init (params : StrategyParams) : Backtest :=
  { params := params }

/-- Method `BidOnlyBacktest.process_trade`: mutates `self.positions`, returns
the optional log dict. -/
def Backtest.process_trade (b : Backtest) (t : Trade) : Backtest × Option TradeLog :=
  let r := positionsStep b.params.position_scale t b.positions
  ({ b with positions := r.1 }, r.2)

/-- One iteration of the loop in `BidOnlyBacktest.run`: process the trade
and append its log dict to `self.trades_log` when one was returned. -/
def Backtest.step (b : Backtest) (t : Trade) : Backtest :=
  let r := b.process_trade t
  match r.2 with
  | some l => { r.1 with trades_log := r.1.trades_log ++ [l] }
  | none => r.1

/-- The processing loop of `BidOnlyBacktest.run` over an ordered trade
stream (sorting by timestamp happens before this loop in the source). -/
def Backtest.runTrades (b : Backtest) (ts : List Trade) : Backtest :=
  ts.foldl Backtest.step b

/-- Per-market running totals accumulated by the inner loop of
`calculate_pnl` (market_pnl, market_hypothetical, and the portions of
the global accumulators contributed by this market). -/
structure SideTotals where
  pnl : ℚ := 0
  hypo : ℚ := 0
  volume : ℚ := 0
  winner_bought : ℚ := 0
  loser_bought : ℚ := 0
  winner_sold : ℚ := 0
  loser_sold : ℚ := 0
  deriving Repr, DecidableEq

/-- The body of the inner loop of `calculate_pnl` for one token side:
skips sides with `token_amount == 0`, otherwise settles at $1 for the
winner side and $0 otherwise (`is_winner = (pos.winning_token == side)`,
so an unset `winning_token` makes both sides losers). -/
def settleSide (wt : Option String) (side : String) (tp : Position)
    (acc : SideTotals) : SideTotals :=
  if tp.token_amount = 0 then acc
  else
    let resolution_value := tp.tokens_held * (if wt = some side then (1 : ℚ) else 0)
    let actual_pnl := resolution_value + tp.sell_proceeds - tp.cost_basis
    let hypo_resolution := tp.token_amount * (if wt = some side then (1 : ℚ) else 0)
    let hypo_pnl := hypo_resolution - tp.cost_basis
    let acc1 := { acc with
      pnl := acc.pnl + actual_pnl,
      hypo := acc.hypo + hypo_pnl,
      volume := acc.volume + tp.cost_basis + tp.sell_proceeds }
    if wt = some side then
      { acc1 with winner_bought := acc1.winner_bought + tp.token_amount,
                  winner_sold := acc1.winner_sold + tp.tokens_sold }
    else
      { acc1 with loser_bought := acc1.loser_bought + tp.token_amount,
                  loser_sold := acc1.loser_sold + tp.tokens_sold }

/-- The inner loop of `calculate_pnl` over the token1 and token2 sides,
in that order. -/
def settleMarket (pos : MarketPosition) : SideTotals :=
  settleSide pos.winning_token "token2" pos.token2
    (settleSide pos.winning_token "token1" pos.token1 {})

/-- Global accumulators of the outer loop of `calculate_pnl`. -/
structure PnlAcc where
  total_pnl : ℚ := 0
  hypothetical_pnl : ℚ := 0
  total_volume : ℚ := 0
  winner_bought : ℚ := 0
  loser_bought : ℚ := 0
  winner_sold : ℚ := 0
  loser_sold : ℚ := 0
  pnl_by_crypto : List (String × ℚ) := []
  winning_markets : Nat := 0
  losing_markets : Nat := 0
  deriving Repr, DecidableEq

/-- The `pnl_by_crypto` dict update: initialize the key to 0 when absent,
then add the market P&L (insertion-ordered association list). -/
def addCrypto : List (String × ℚ) → String → ℚ → List (String × ℚ)
  | [], c, v => [(c, v)]
  | (k, x) :: rest, c, v =>
    if k = c then (k, x + v) :: rest else (k, x) :: addCrypto rest c v

/-- The body of the outer loop of `calculate_pnl` for one market. -/
def marketAcc (acc : PnlAcc) (pos : MarketPosition) : PnlAcc :=
  let st := settleMarket pos
  let acc1 := { acc with
    total_pnl := acc.total_pnl + st.pnl,
    hypothetical_pnl := acc.hypothetical_pnl + st.hypo,
    total_volume := acc.total_volume + st.volume,
    winner_bought := acc.winner_bought + st.winner_bought,
    loser_bought := acc.loser_bought + st.loser_bought,
    winner_sold := acc.winner_sold + st.winner_sold,
    loser_sold := acc.loser_sold + st.loser_sold,
    pnl_by_crypto := addCrypto acc.pnl_by_crypto pos.crypto_type st.pnl }
  if 0 < st.pnl then { acc1 with winning_markets := acc1.winning_markets + 1 }
  else if st.pnl < 0 then { acc1 with losing_markets := acc1.losing_markets + 1 }
  else acc1

/-- The `BacktestResult` dataclass. -/
structure BacktestResult where
  total_pnl : ℚ
  hypothetical_pnl : ℚ
  selling_edge : ℚ
  total_volume : ℚ
  num_markets : Nat
  num_trades : Nat
  winner_tokens_bought : ℚ
  loser_tokens_bought : ℚ
  winner_tokens_sold : ℚ
  loser_tokens_sold : ℚ
  pnl_by_crypto : List (String × ℚ)
  winning_markets : Nat
  losing_markets : Nat
  deriving Repr, DecidableEq

/-- Method `BidOnlyBacktest.calculate_pnl`. -/
def Backtest.calculate_pnl (b : Backtest) : BacktestResult :=
  let acc := b.positions.foldl marketAcc {}
  { total_pnl := acc.total_pnl,
    hypothetical_pnl := acc.hypothetical_pnl,
    selling_edge := acc.total_pnl - acc.hypothetical_pnl,
    total_volume := acc.total_volume,
    num_markets := b.positions.length,
    num_trades := b.trades_log.length,
    winner_tokens_bought := acc.winner_bought,
    loser_tokens_bought := acc.loser_bought,
    winner_tokens_sold := acc.winner_sold,
    loser_tokens_sold := acc.loser_sold,
    pnl_by_crypto := acc.pnl_by_crypto,
    winning_markets := acc.winning_markets,
    losing_markets := acc.losing_markets }

/-- The `calculate_pnl` method as a call on the engine: its body contains
no assignment to `self`, so the engine state it leaves behind is the one
it was called on. -/
def Backtest.calculate_pnl_call (b : Backtest) : BacktestResult × Backtest :=
  (b.calculate_pnl, b)

/-- Python float division, which raises `ZeroDivisionError` on a zero
denominator instead of returning a value. -/
def pyDivQ (a b : ℚ) : Except String ℚ :=
  if b = 0 then Except.error "ZeroDivisionError" else Except.ok (a / b)

/-- The adverse-selection computation of `print_results`: guarded only by
`loser_tokens_bought > 0 and winner_tokens_bought > 0`, then a Python
float division by `winner_tokens_bought - winner_tokens_sold`.
`ok none` models the guarded-out (not printed) case. -/
def adverse_selection (r : BacktestResult) : Except String (Option ℚ) :=
  if 0 < r.loser_tokens_bought ∧ 0 < r.winner_tokens_bought then
    (pyDivQ (r.loser_tokens_bought - r.loser_tokens_sold)
            (r.winner_tokens_bought - r.winner_tokens_sold)).map some
  else Except.ok none

/-- Per-side actual P&L as the spec states it:
`tokens_held * (1 if winner else 0) + sell_proceeds - cost_basis`. -/
def specActualPnl (wt : Option String) (side : String) (tp : Position) : ℚ :=
  tp.tokens_held * (if wt = some side then (1 : ℚ) else 0)
    + tp.sell_proceeds - tp.cost_basis

/-- Per-side hypothetical P&L as the spec states it:
`token_amount_bought * (1 if winner else 0) - cost_basis`. -/
def specHypoPnl (wt : Option String) (side : String) (tp : Position) : ℚ :=
  tp.token_amount * (if wt = some side then (1 : ℚ) else 0) - tp.cost_basis

/-- Well-formedness of a token-side accumulator: non-negative sales never
exceeding purchases, and an untraded side has zero cost and proceeds. -/
def PosInv (tp : Position) : Prop :=
  0 ≤ tp.tokens_sold ∧ tp.tokens_sold ≤ tp.token_amount ∧
    (tp.token_amount = 0 → tp.cost_basis = 0 ∧ tp.sell_proceeds = 0)

/-- Well-formedness of a market: both token sides well-formed. -/
def MInv (p : MarketPosition) : Prop :=
  PosInv p.token1 ∧ PosInv p.token2


/-- The first trade in the stream referencing a given market id. -/
def firstTradeFor : List Trade → Int → Option Trade
  | [], _ => none
  | t :: ts, mid => if t.market_id = mid then some t else firstTradeFor ts mid

/-! ### Concrete inputs used in closed instances -/

/-- Parameters with `position_scale = 1` (other fields at their defaults). -/
def scaleOneParams : StrategyParams :=
  { position_scale := 1 }

/-- Same `position_scale` as `scaleOneParams` but different values for the
three unused strategy thresholds. -/
def altScaleOneParams : StrategyParams :=
  { max_bid_price := 9/10, min_sell_price := 1/10, exit_window_sec := 60,
    position_scale := 1 }

/-- A BUY of 10 tokens at $0.30 on a market whose record carries no
`winning_token`. -/
def tradeBuyUnresolved : Trade :=
  { timestamp := 0, market_id := 1, nonusdc_side := "token1", price := 3/10,
    time_to_close_sec := 0, crypto_type := "BTC", trader_side := "BUY",
    trader_role := "TAKER", token_amount := 10, winning_token := none }

/-- A BUY of 1 `token1` at $0.50 on a market resolved to `token1`. -/
def tradeBuyWinner : Trade :=
  { timestamp := 0, market_id := 1, nonusdc_side := "token1", price := 1/2,
    time_to_close_sec := 0, crypto_type := "BTC", trader_side := "BUY",
    trader_role := "MAKER", token_amount := 1, winning_token := some "token1" }

/-- A SELL of the whole `token1` position of `tradeBuyWinner` at $0.60. -/
def tradeSellWinner : Trade :=
  { tradeBuyWinner with timestamp := 1, trader_side := "SELL", price := 3/5,
                        trader_role := "TAKER" }

/-- A BUY of 1 `token2` (the losing side) at $0.25 on the same market. -/
def tradeBuyLoser : Trade :=
  { tradeBuyWinner with timestamp := 2, nonusdc_side := "token2", price := 1/4 }

/-- A BUY whose price lies outside `[0, 1]`. -/
def tradeBadPrice : Trade :=
  { timestamp := 0, market_id := 2, nonusdc_side := "token1", price := 2,
    time_to_close_sec := 0, crypto_type := "ETH", trader_side := "BUY",
    trader_role := "TAKER", token_amount := 1, winning_token := none }

/-- A SELL of 5 tokens against an empty position. -/
def tradeSellOnly : Trade :=
  { timestamp := 0, market_id := 3, nonusdc_side := "token1", price := 1/2,
    time_to_close_sec := 0, crypto_type := "BTC", trader_side := "SELL",
    trader_role := "TAKER", token_amount := 5, winning_token := none }

/-- A SELL of 200 tokens (scenario: clamped against 50 held). -/
def tradeSell200 : Trade :=
  { timestamp := 0, market_id := 4, nonusdc_side := "token1", price := 3/5,
    time_to_close_sec := 0, crypto_type := "BTC", trader_side := "SELL",
    trader_role := "TAKER", token_amount := 200, winning_token := none }

/-- A position holding 50 tokens. -/
def posHeld50 : Position :=
  { token_amount := 50, cost_basis := 15 }

/-- Scenario B of the spec: 100 bought at $0.30, 50 sold at $0.60,
market resolved to `token1`. -/
def marketScenarioB : MarketPosition :=
  { market_id := 7, crypto_type := "ETH",
    token1 := { token_amount := 100, cost_basis := 30, sell_proceeds := 30,
                tokens_sold := 50 },
    winning_token := some "token1" }

/-- A market whose `token1` has negative `tokens_held` (2 sold, 1 bought). -/
def negHeldMarket : MarketPosition :=
  { market_id := 3, crypto_type := "BTC",
    token1 := { token_amount := 1, cost_basis := 1/2, sell_proceeds := 1,
                tokens_sold := 2 },
    winning_token := some "token1" }

/-- An engine state holding `negHeldMarket`. -/
def negHeldBacktest : Backtest :=
  { params := scaleOneParams, positions := [negHeldMarket] }

/-- A result with positive bought totals and nonzero winner holdings. -/
def resultEx : BacktestResult :=
  { total_pnl := 0, hypothetical_pnl := 0, selling_edge := 0, total_volume := 0,
    num_markets := 0, num_trades := 0, winner_tokens_bought := 2,
    loser_tokens_bought := 3, winner_tokens_sold := 1, loser_tokens_sold := 1,
    pnl_by_crypto := [], winning_markets := 0, losing_markets := 0 }


/-- An unresolved market (no `winning_token`) with one traded side. -/
def unresolvedMarketEx : MarketPosition :=
  { market_id := 1, crypto_type := "BTC",
    token1 := { token_amount := 10, cost_basis := 3, sell_proceeds := 1,
                tokens_sold := 2 } }

end Bidonly

/-! ### Helper lemmas -/

namespace Bidonly

theorem none_eq_some_false (s : String) : ((none : Option String) = some s) = False := by
  simp

theorem tokenStep_posInv (scale : ℚ) (t : Trade) (tp : Position) (h : PosInv tp) :
    PosInv (tokenStep scale t tp).1 := by
  obtain ⟨hs0, hs1, hz⟩ := h
  have hta : (0 : ℚ) ≤ tp.token_amount := le_trans hs0 hs1
  simp only [tokenStep, Position.tokens_held]
  split_ifs with hb ha hs hm
  · -- BUY applied
    simp only [PosInv, Position.tokens_held]
    refine ⟨hs0, by linarith, ?_⟩
    intro h0
    exfalso
    linarith
  · exact ⟨hs0, hs1, hz⟩
  · -- SELL applied
    have hmin1 : min (tp.token_amount - tp.tokens_sold) (t.token_amount * scale)
        ≤ tp.token_amount - tp.tokens_sold := min_le_left _ _
    simp only [PosInv, Position.tokens_held]
    refine ⟨by linarith, by linarith, ?_⟩
    intro h0
    exfalso
    linarith
  · exact ⟨hs0, hs1, hz⟩
  · exact ⟨hs0, hs1, hz⟩

theorem marketStep_mInv (scale : ℚ) (t : Trade) (p : MarketPosition) (h : MInv p) :
    MInv (marketStep scale t p).1 := by
  obtain ⟨h1, h2⟩ := h
  simp only [marketStep]
  split
  · exact ⟨tokenStep_posInv scale t p.token1 h1, h2⟩
  · exact ⟨h1, tokenStep_posInv scale t p.token2 h2⟩

theorem marketStep_market_id (scale : ℚ) (t : Trade) (p : MarketPosition) :
    ((marketStep scale t p).1).market_id = p.market_id := by
  simp only [marketStep]
  split <;> rfl

theorem marketStep_winning_token (scale : ℚ) (t : Trade) (p : MarketPosition) :
    ((marketStep scale t p).1).winning_token = p.winning_token := by
  simp only [marketStep]
  split <;> rfl

theorem marketStep_crypto_type (scale : ℚ) (t : Trade) (p : MarketPosition) :
    ((marketStep scale t p).1).crypto_type = p.crypto_type := by
  simp only [marketStep]
  split <;> rfl

end Bidonly

namespace Bidonly

theorem updateMarketList_forall {Q : MarketPosition → Prop}
    (f : MarketPosition → MarketPosition × Option TradeLog)
    (hf : ∀ p, Q p → Q (f p).1) :
    ∀ (ps : List MarketPosition) (mid : Int), (∀ p ∈ ps, Q p) →
      ∀ p ∈ (updateMarketList f ps mid).1, Q p := by
  intro ps
  induction ps with
  | nil =>
    intro mid h p hp
    simp [updateMarketList] at hp
  | cons q ps ih =>
    intro mid h p hp
    simp only [updateMarketList] at hp
    by_cases hq : q.market_id = mid
    · rw [if_pos hq] at hp
      rcases List.mem_cons.mp hp with h1 | h2
      · exact h1 ▸ hf q (h q (List.mem_cons_self q ps))
      · exact h p (List.mem_cons_of_mem q h2)
    · rw [if_neg hq] at hp
      rcases List.mem_cons.mp hp with h1 | h2
      · exact h1 ▸ h q (List.mem_cons_self q ps)
      · exact ih mid (fun r hr => h r (List.mem_cons_of_mem q hr)) p h2

theorem ensureMarket_forall {Q : MarketPosition → Prop}
    (ps : List MarketPosition) (t : Trade) (h : ∀ p ∈ ps, Q p)
    (hnew : Q (newMarket t)) : ∀ p ∈ ensureMarket ps t, Q p := by
  intro p hp
  simp only [ensureMarket] at hp
  split at hp
  · exact h p hp
  · rcases List.mem_append.mp hp with h1 | h2
    · exact h p h1
    · rw [List.mem_singleton.mp h2]
      exact hnew

theorem newMarket_mInv (t : Trade) : MInv (newMarket t) := by
  refine ⟨⟨le_refl 0, le_refl 0, ?_⟩, ⟨le_refl 0, le_refl 0, ?_⟩⟩ <;>
    exact fun _ => ⟨rfl, rfl⟩

theorem step_positions (b : Backtest) (t : Trade) :
    (b.step t).positions = (positionsStep b.params.position_scale t b.positions).1 := by
  simp only [Backtest.step, Backtest.process_trade]
  split <;> rfl

theorem step_params (b : Backtest) (t : Trade) : (b.step t).params = b.params := by
  simp only [Backtest.step, Backtest.process_trade]
  split <;> rfl

theorem step_trades_log (b : Backtest) (t : Trade) :
    (b.step t).trades_log
      = b.trades_log ++ (positionsStep b.params.position_scale t b.positions).2.toList := by
  simp only [Backtest.step, Backtest.process_trade]
  split <;> simp_all

theorem step_mInv (b : Backtest) (t : Trade) (h : ∀ p ∈ b.positions, MInv p) :
    ∀ p ∈ (b.step t).positions, MInv p := by
  rw [step_positions]
  exact updateMarketList_forall _ (fun p hp => marketStep_mInv _ t p hp) _ _
    (ensureMarket_forall b.positions t h (newMarket_mInv t))

theorem runTrades_mInv (ts : List Trade) :
    ∀ b : Backtest, (∀ p ∈ b.positions, MInv p) →
      ∀ p ∈ (b.runTrades ts).positions, MInv p := by
  induction ts with
  | nil => exact fun b h => h
  | cons t ts ih =>
    intro b h
    exact ih (b.step t) (step_mInv b t h)

end Bidonly

namespace Bidonly

theorem findMarket_append (ps qs : List MarketPosition) (mid : Int) :
    findMarket (ps ++ qs) mid
      = match findMarket ps mid with
        | some p => some p
        | none => findMarket qs mid := by
  induction ps with
  | nil => simp [findMarket]
  | cons p ps ih =>
    by_cases hp : p.market_id = mid
    · simp [findMarket, hp]
    · simpa [findMarket, hp] using ih

theorem updateMarketList_find_self
    (f : MarketPosition → MarketPosition × Option TradeLog)
    (hf : ∀ p, ((f p).1).market_id = p.market_id) :
    ∀ (ps : List MarketPosition) (mid : Int),
      findMarket (updateMarketList f ps mid).1 mid
        = (findMarket ps mid).map (fun p => (f p).1) := by
  intro ps
  induction ps with
  | nil => intro mid; simp [updateMarketList, findMarket]
  | cons q ps ih =>
    intro mid
    by_cases hq : q.market_id = mid
    · simp only [updateMarketList, if_pos hq, findMarket]
      rw [if_pos (by rw [hf q]; exact hq)]
      simp [findMarket, hq]
    · simp only [updateMarketList, if_neg hq, findMarket]
      exact ih mid

theorem updateMarketList_find_other
    (f : MarketPosition → MarketPosition × Option TradeLog)
    (hf : ∀ p, ((f p).1).market_id = p.market_id)
    (mid mid2 : Int) (hne : mid2 ≠ mid) :
    ∀ ps : List MarketPosition,
      findMarket (updateMarketList f ps mid).1 mid2 = findMarket ps mid2 := by
  intro ps
  induction ps with
  | nil => simp [updateMarketList, findMarket]
  | cons q ps ih =>
    by_cases hq : q.market_id = mid
    · have hq2 : ¬ q.market_id = mid2 := fun h => hne (h ▸ hq)
      simp only [updateMarketList, if_pos hq, findMarket]
      rw [if_neg (by rw [hf q]; exact hq2), if_neg hq2]
    · simp only [updateMarketList, if_neg hq, findMarket]
      by_cases hq2 : q.market_id = mid2
      · rw [if_pos hq2, if_pos hq2]
      · rw [if_neg hq2, if_neg hq2]
        exact ih

end Bidonly

namespace Bidonly

theorem ensureMarket_find_self (ps : List MarketPosition) (t : Trade) :
    findMarket (ensureMarket ps t) t.market_id
      = match findMarket ps t.market_id with
        | some p => some p
        | none => some (newMarket t) := by
  simp only [ensureMarket]
  rcases hfind : findMarket ps t.market_id with _ | p
  · rw [if_neg (by simp [hfind])]
    rw [findMarket_append, hfind]
    simp [findMarket, newMarket]
  · rw [if_pos (by simp [hfind]), hfind]

theorem ensureMarket_find_other (ps : List MarketPosition) (t : Trade) (mid : Int)
    (hne : mid ≠ t.market_id) :
    findMarket (ensureMarket ps t) mid = findMarket ps mid := by
  have hnm : ¬ (newMarket t).market_id = mid := fun h => hne h.symm
  simp only [ensureMarket]
  split
  · rfl
  · rw [findMarket_append]
    cases hfind : findMarket ps mid
    · simp [hfind, findMarket, hnm]
    · simp [hfind]

theorem process_trade_find_self (b : Backtest) (t : Trade) :
    findMarket (b.process_trade t).1.positions t.market_id
      = match findMarket b.positions t.market_id with
        | some p => some (marketStep b.params.position_scale t p).1
        | none => some (marketStep b.params.position_scale t (newMarket t)).1 := by
  show findMarket (positionsStep b.params.position_scale t b.positions).1 t.market_id = _
  rw [positionsStep, updateMarketList_find_self _ (marketStep_market_id _ t),
    ensureMarket_find_self]
  rcases findMarket b.positions t.market_id with _ | p <;> rfl

theorem process_trade_find_other (b : Backtest) (t : Trade) (mid : Int)
    (hne : mid ≠ t.market_id) :
    findMarket (b.process_trade t).1.positions mid = findMarket b.positions mid := by
  show findMarket (positionsStep b.params.position_scale t b.positions).1 mid = _
  rw [positionsStep, updateMarketList_find_other _ (marketStep_market_id _ t) _ _ hne,
    ensureMarket_find_other _ _ _ hne]

theorem runTrades_find_winning (ts : List Trade) :
    ∀ (b : Backtest) (mid : Int),
      (findMarket (b.runTrades ts).positions mid).map MarketPosition.winning_token
        = match findMarket b.positions mid with
          | some p => some p.winning_token
          | none => (firstTradeFor ts mid).map Trade.winning_token := by
  induction ts with
  | nil =>
    intro b mid
    show (findMarket b.positions mid).map MarketPosition.winning_token = _
    cases findMarket b.positions mid <;> simp [firstTradeFor]
  | cons t ts ih =>
    intro b mid
    have hrun : b.runTrades (t :: ts) = (b.step t).runTrades ts := rfl
    rw [hrun, ih (b.step t) mid]
    by_cases hmid : mid = t.market_id
    · subst hmid
      rw [step_positions,
        show (positionsStep b.params.position_scale t b.positions).1
          = (b.process_trade t).1.positions from rfl,
        process_trade_find_self b t]
      cases hfp : findMarket b.positions t.market_id
      · simp [marketStep_winning_token, firstTradeFor, newMarket]
      · simp [marketStep_winning_token, firstTradeFor]
    · rw [step_positions,
        show (positionsStep b.params.position_scale t b.positions).1
          = (b.process_trade t).1.positions from rfl,
        process_trade_find_other b t mid hmid]
      have hmid2 : ¬ t.market_id = mid := Ne.symm hmid
      cases hfp : findMarket b.positions mid
      · simp [firstTradeFor, hmid2]
      · simp

end Bidonly

namespace Bidonly

theorem step_congr (b1 b2 : Backtest) (t : Trade)
    (hs : b1.params.position_scale = b2.params.position_scale)
    (hp : b1.positions = b2.positions) (hl : b1.trades_log = b2.trades_log) :
    (b1.step t).params.position_scale = (b2.step t).params.position_scale
      ∧ (b1.step t).positions = (b2.step t).positions
      ∧ (b1.step t).trades_log = (b2.step t).trades_log := by
  refine ⟨?_, ?_, ?_⟩
  · rw [step_params, step_params, hs]
  · rw [step_positions, step_positions, hs, hp]
  · rw [step_trades_log, step_trades_log, hs, hp, hl]

theorem runTrades_congr (ts : List Trade) :
    ∀ (b1 b2 : Backtest),
      b1.params.position_scale = b2.params.position_scale →
      b1.positions = b2.positions → b1.trades_log = b2.trades_log →
      (b1.runTrades ts).positions = (b2.runTrades ts).positions
        ∧ (b1.runTrades ts).trades_log = (b2.runTrades ts).trades_log := by
  induction ts with
  | nil => exact fun b1 b2 hs hp hl => ⟨hp, hl⟩
  | cons t ts ih =>
    intro b1 b2 hs hp hl
    obtain ⟨hs2, hp2, hl2⟩ := step_congr b1 b2 t hs hp hl
    exact ih (b1.step t) (b2.step t) hs2 hp2 hl2

theorem calculate_pnl_congr (b1 b2 : Backtest)
    (hp : b1.positions = b2.positions) (hl : b1.trades_log = b2.trades_log) :
    b1.calculate_pnl = b2.calculate_pnl := by
  simp only [Backtest.calculate_pnl, hp, hl]

end Bidonly

namespace Bidonly

theorem settleSide_fields (wt : Option String) (side : String) (tp : Position)
    (acc : SideTotals) (h : PosInv tp) :
    (settleSide wt side tp acc).pnl = acc.pnl + specActualPnl wt side tp
    ∧ (settleSide wt side tp acc).hypo = acc.hypo + specHypoPnl wt side tp
    ∧ (settleSide wt side tp acc).volume = acc.volume + tp.cost_basis + tp.sell_proceeds
    ∧ (settleSide wt side tp acc).winner_bought
        = acc.winner_bought + (if wt = some side then tp.token_amount else 0)
    ∧ (settleSide wt side tp acc).winner_sold
        = acc.winner_sold + (if wt = some side then tp.tokens_sold else 0)
    ∧ (settleSide wt side tp acc).loser_bought
        = acc.loser_bought + (if wt = some side then 0 else tp.token_amount)
    ∧ (settleSide wt side tp acc).loser_sold
        = acc.loser_sold + (if wt = some side then 0 else tp.tokens_sold) := by
  obtain ⟨hs0, hs1, hz⟩ := h
  by_cases h0 : tp.token_amount = 0
  · have hsold : tp.tokens_sold = 0 := le_antisymm (h0 ▸ hs1) hs0
    obtain ⟨hc, hpr⟩ := hz h0
    simp [settleSide, h0, specActualPnl, specHypoPnl, Position.tokens_held, hsold, hc, hpr]
  · refine ⟨?_, ?_, ?_, ?_, ?_, ?_, ?_⟩ <;>
      by_cases hw : wt = some side <;>
        simp [settleSide, if_neg h0, hw, specActualPnl, specHypoPnl, Position.tokens_held]

end Bidonly

namespace Bidonly

/-- C10: for every market, `winning_token` is captured exclusively from the
first trade referencing the `market_id` (at lazy `MarketPosition` creation)
and is never read from or updated by any later trade: the stored value
always equals the `winning_token` field of the first trade for that market,
regardless of what later trades carry. -/
theorem claim_C10 (params : StrategyParams) (ts : List Trade) (mid : Int) :
    (findMarket ((Backtest.init params).runTrades ts).positions mid).map
        MarketPosition.winning_token
      = (firstTradeFor ts mid).map Trade.winning_token := by
  rw [runTrades_find_winning ts (Backtest.init params) mid]
  rfl

/-- C8: two runs whose configurations agree on `position_scale` but differ
arbitrarily in `max_bid_price`, `min_sell_price` and `exit_window_sec`
produce identical position stores, identical replay logs and identical
`BacktestResult` values; the decision hooks are unconditional
pass-throughs. -/
theorem claim_C8 (p1 p2 : StrategyParams) (ts : List Trade)
    (hscale : p1.position_scale = p2.position_scale) :
    ((Backtest.init p1).runTrades ts).positions
        = ((Backtest.init p2).runTrades ts).positions
    ∧ ((Backtest.init p1).runTrades ts).trades_log
        = ((Backtest.init p2).runTrades ts).trades_log
    ∧ ((Backtest.init p1).runTrades ts).calculate_pnl
        = ((Backtest.init p2).runTrades ts).calculate_pnl
    ∧ (∀ (price : ℚ) (ttc : Int), should_buy price ttc = true)
    ∧ (∀ (price : ℚ) (ttc : Int) (held : ℚ),
        should_sell price ttc held = decide (held > 0)) := by
  obtain ⟨hp, hl⟩ := runTrades_congr ts (Backtest.init p1) (Backtest.init p2) hscale rfl rfl
  exact ⟨hp, hl, calculate_pnl_congr _ _ hp hl, fun _ _ => rfl, fun _ _ _ => rfl⟩

/-- Witness for C8: two concrete configurations differing only in the three
unused thresholds yield the same result on a concrete trade. -/
theorem claim_C8_witness :
    ((Backtest.init scaleOneParams).runTrades [tradeBuyWinner]).calculate_pnl
      = ((Backtest.init altScaleOneParams).runTrades [tradeBuyWinner]).calculate_pnl :=
  (claim_C8 scaleOneParams altScaleOneParams [tradeBuyWinner] rfl).2.2.1

end Bidonly

namespace Bidonly

/-- C2: for every parameter choice and every trade stream (any prices,
amounts and `trader_side` values), every `Position` of the resulting store
satisfies `tokens_sold ≤ token_amount` (equivalently `0 ≤ tokens_held`);
moreover a sell against zero holdings leaves the position unchanged, and a
sell request exceeding the holdings is clamped to `tokens_held`. -/
theorem claim_C2 (params : StrategyParams) (ts : List Trade) :
    (∀ p ∈ ((Backtest.init params).runTrades ts).positions,
        p.token1.tokens_sold ≤ p.token1.token_amount
        ∧ p.token2.tokens_sold ≤ p.token2.token_amount
        ∧ 0 ≤ p.token1.tokens_held ∧ 0 ≤ p.token2.tokens_held)
    ∧ (∀ (scale : ℚ) (t : Trade) (tp : Position), t.trader_side = "SELL" →
        tp.tokens_held = 0 → tokenStep scale t tp = (tp, none))
    ∧ (∀ (scale : ℚ) (t : Trade) (tp : Position), t.trader_side = "SELL" →
        0 < tp.tokens_held → tp.tokens_held ≤ t.token_amount * scale →
        (tokenStep scale t tp).1.tokens_sold = tp.tokens_sold + tp.tokens_held) := by
  refine ⟨?_, ?_, ?_⟩
  · intro p hp
    have hbase : ∀ q ∈ (Backtest.init params).positions, MInv q := by
      intro q hq
      exact absurd hq (List.not_mem_nil q)
    obtain ⟨⟨h10, h11, _⟩, ⟨h20, h21, _⟩⟩ :=
      runTrades_mInv ts (Backtest.init params) hbase p hp
    exact ⟨h11, h21, by simp [Position.tokens_held]; linarith,
      by simp [Position.tokens_held]; linarith⟩
  · intro scale t tp hsell h0
    have hm : min tp.tokens_held (t.token_amount * scale) ≤ 0 :=
      h0 ▸ min_le_left _ _
    have hne : ("SELL" = "BUY") = False := eq_false (by decide)
    simp only [tokenStep, hsell, hne, if_false, if_true]
    rw [if_neg (not_lt.mpr hm)]
  · intro scale t tp hsell h0 hle
    have hm : min tp.tokens_held (t.token_amount * scale) = tp.tokens_held :=
      min_eq_left hle
    have hne : ("SELL" = "BUY") = False := eq_false (by decide)
    simp only [tokenStep, hsell, hne, if_false, if_true]
    rw [hm, if_pos h0]

/-- Witness for C2: a sell against an empty position is a no-op, and a sell
of 200 against 50 held increases `tokens_sold` by exactly the 50 held. -/
theorem claim_C2_witness :
    tokenStep 1 tradeSellOnly {} = ({}, none)
    ∧ (tokenStep 1 tradeSell200 posHeld50).1.tokens_sold
        = posHeld50.tokens_sold + posHeld50.tokens_held := by
  constructor
  · exact (claim_C2 scaleOneParams []).2.1 1 tradeSellOnly {} rfl
      (by norm_num [Position.tokens_held])
  · exact (claim_C2 scaleOneParams []).2.2 1 tradeSell200 posHeld50 rfl
      (by norm_num [Position.tokens_held, posHeld50])
      (by norm_num [Position.tokens_held, posHeld50, tradeSell200])

end Bidonly

namespace Bidonly

/-- C5: for every SELL trade with non-negative scaled request applied to a
position with non-negative holdings, the amount sold equals
`min (raw_amount * scale) tokens_held`, `tokens_sold` grows by that amount
and `sell_proceeds` by that amount times the price, the buy-side
accumulators are untouched, and a sell against zero holdings is a no-op. -/
theorem claim_C5 (scale : ℚ) (t : Trade) (tp : Position)
    (hsell : t.trader_side = "SELL") (h0 : 0 ≤ tp.tokens_held)
    (hr : 0 ≤ t.token_amount * scale) :
    (tokenStep scale t tp).1.tokens_sold
        = tp.tokens_sold + min (t.token_amount * scale) tp.tokens_held
    ∧ (tokenStep scale t tp).1.sell_proceeds
        = tp.sell_proceeds + min (t.token_amount * scale) tp.tokens_held * t.price
    ∧ (tokenStep scale t tp).1.token_amount = tp.token_amount
    ∧ (tokenStep scale t tp).1.cost_basis = tp.cost_basis
    ∧ (tp.tokens_held = 0 → tokenStep scale t tp = (tp, none)) := by
  have hne : ("SELL" = "BUY") = False := eq_false (by decide)
  have hcomm : min tp.tokens_held (t.token_amount * scale)
      = min (t.token_amount * scale) tp.tokens_held := min_comm _ _
  simp only [tokenStep, hsell, hne, if_false, if_true]
  rcases lt_or_eq_of_le (le_min hr h0 : 0 ≤ min (t.token_amount * scale) tp.tokens_held)
    with hpos | hzero
  · rw [if_pos (hcomm ▸ hpos)]
    refine ⟨by rw [hcomm], by rw [hcomm], rfl, rfl, ?_⟩
    intro hh
    exfalso
    have : min (t.token_amount * scale) tp.tokens_held ≤ 0 := by
      rw [hh] at hpos ⊢
      exact min_le_right _ _
    linarith
  · rw [if_neg (by rw [hcomm, ← hzero]; exact lt_irrefl 0)]
    exact ⟨by rw [← hzero, add_zero], by rw [← hzero, zero_mul, add_zero],
      rfl, rfl, fun _ => rfl⟩

/-- Witness for C5: selling a scaled amount of 200 against 50 held sells
exactly 50. -/
theorem claim_C5_witness :
    (tokenStep 1 tradeSell200 posHeld50).1.tokens_sold
        = posHeld50.tokens_sold + min (tradeSell200.token_amount * 1) posHeld50.tokens_held
    ∧ posHeld50.tokens_sold + min (tradeSell200.token_amount * 1) posHeld50.tokens_held
        = 50 := by
  constructor
  · exact (claim_C5 1 tradeSell200 posHeld50 rfl
      (by norm_num [Position.tokens_held, posHeld50])
      (by norm_num [tradeSell200])).1
  · norm_num [Position.tokens_held, posHeld50, tradeSell200, min_def]

/-- C6: for every trade with non-negative price (as the Trade data model
requires), a BUY never decreases `token_amount` or `cost_basis`, and a SELL
never decreases `tokens_sold` or `sell_proceeds`. -/
theorem claim_C6 (scale : ℚ) (t : Trade) (tp : Position) (hp : 0 ≤ t.price) :
    (t.trader_side = "BUY" →
        tp.token_amount ≤ (tokenStep scale t tp).1.token_amount
        ∧ tp.cost_basis ≤ (tokenStep scale t tp).1.cost_basis)
    ∧ (t.trader_side = "SELL" →
        tp.tokens_sold ≤ (tokenStep scale t tp).1.tokens_sold
        ∧ tp.sell_proceeds ≤ (tokenStep scale t tp).1.sell_proceeds) := by
  constructor
  · intro hbuy
    simp only [tokenStep, hbuy, if_true]
    split_ifs with ha
    · constructor
      · simp only []
        linarith
      · have := mul_nonneg (le_of_lt ha) hp
        simp only []
        linarith
    · exact ⟨le_refl _, le_refl _⟩
  · intro hsell
    have hne : ("SELL" = "BUY") = False := eq_false (by decide)
    simp only [tokenStep, hsell, hne, if_false, if_true]
    split_ifs with ha
    · constructor
      · simp only []
        linarith
      · have := mul_nonneg (le_of_lt ha) hp
        simp only []
        linarith
    · exact ⟨le_refl _, le_refl _⟩

/-- Witness for C6: a concrete BUY at price 1/2 does not decrease the buy
accumulators of the empty position. -/
theorem claim_C6_witness :
    ({} : Position).token_amount ≤ (tokenStep 1 tradeBuyWinner {}).1.token_amount
    ∧ ({} : Position).cost_basis ≤ (tokenStep 1 tradeBuyWinner {}).1.cost_basis :=
  (claim_C6 1 tradeBuyWinner {} (by norm_num [tradeBuyWinner])).1 rfl

end Bidonly

namespace Bidonly

/-- C4 (amended): a trade whose `trader_side` is neither BUY nor SELL, or
whose scaled amount is not positive, is skipped with no change to any
`Position` field and no log entry, and processing continues; the source
maintains no rejection counter and performs no price validation. -/
theorem claim_C4 (scale : ℚ) (t : Trade) (tp : Position) :
    (t.trader_side ≠ "BUY" → t.trader_side ≠ "SELL" →
        tokenStep scale t tp = (tp, none))
    ∧ (t.trader_side = "BUY" → t.token_amount * scale ≤ 0 →
        tokenStep scale t tp = (tp, none))
    ∧ (t.trader_side = "SELL" → t.token_amount * scale ≤ 0 →
        tokenStep scale t tp = (tp, none)) := by
  refine ⟨?_, ?_, ?_⟩
  · intro hb hs
    simp only [tokenStep]
    rw [if_neg hb, if_neg hs]
  · intro hb hle
    simp only [tokenStep, hb, if_true]
    rw [if_neg (not_lt.mpr hle)]
  · intro hs hle
    have hne : ("SELL" = "BUY") = False := eq_false (by decide)
    have hm : min tp.tokens_held (t.token_amount * scale) ≤ 0 :=
      le_trans (min_le_right _ _) hle
    simp only [tokenStep, hs, hne, if_false, if_true]
    rw [if_neg (not_lt.mpr hm)]

/-- Counterexample to C4 as stated: a BUY at the out-of-range price $2 is
not skipped; it is applied, mutating the accumulators of the position. -/
theorem claim_C4_counterexample :
    tradeBadPrice.price = 2
    ∧ ¬ tradeBadPrice.price ≤ 1
    ∧ tokenStep 1 tradeBadPrice {}
        = ({ token_amount := 1, cost_basis := 2, sell_proceeds := 0,
             tokens_sold := 0 }, some 1) := by
  refine ⟨rfl, by norm_num [tradeBadPrice], ?_⟩
  norm_num +decide [tokenStep, tradeBadPrice]

/-- Witness for C4 (amended): a trade with `trader_side = "MERGE"` leaves
the position untouched and produces no log entry. -/
theorem claim_C4_witness :
    tokenStep 1 { tradeBuyWinner with trader_side := "MERGE" } posHeld50
      = (posHeld50, none) :=
  (claim_C4 1 { tradeBuyWinner with trader_side := "MERGE" } posHeld50).1
    (by decide) (by decide)

end Bidonly

namespace Bidonly

/-- C1 (amended): a well-formed `MarketPosition` whose `winning_token` is
unset is settled with both sides treated as losers: it contributes
`sell_proceeds - cost_basis` per side to total P&L and `-cost_basis` per
side to hypothetical P&L (not zero); its trades still count toward volume
and the loser token-flow totals; no distinct unresolved count exists. -/
theorem claim_C1 (pos : MarketPosition) (hw : pos.winning_token = none)
    (h1 : PosInv pos.token1) (h2 : PosInv pos.token2) :
    (settleMarket pos).pnl
        = (pos.token1.sell_proceeds - pos.token1.cost_basis)
          + (pos.token2.sell_proceeds - pos.token2.cost_basis)
    ∧ (settleMarket pos).hypo = -(pos.token1.cost_basis + pos.token2.cost_basis)
    ∧ (settleMarket pos).volume
        = (pos.token1.cost_basis + pos.token1.sell_proceeds)
          + (pos.token2.cost_basis + pos.token2.sell_proceeds)
    ∧ (settleMarket pos).winner_bought = 0
    ∧ (settleMarket pos).winner_sold = 0
    ∧ (settleMarket pos).loser_bought
        = pos.token1.token_amount + pos.token2.token_amount
    ∧ (settleMarket pos).loser_sold
        = pos.token1.tokens_sold + pos.token2.tokens_sold := by
  obtain ⟨e1, e2, e3, e4, e5, e6, e7⟩ :=
    settleSide_fields pos.winning_token "token1" pos.token1 {} h1
  obtain ⟨f1, f2, f3, f4, f5, f6, f7⟩ :=
    settleSide_fields pos.winning_token "token2" pos.token2
      (settleSide pos.winning_token "token1" pos.token1 {}) h2
  rw [hw] at e1 e2 e3 e4 e5 e6 e7 f1 f2 f3 f4 f5 f6 f7
  simp only [none_eq_some_false, if_false, specActualPnl, specHypoPnl,
    Position.tokens_held] at e1 e2 e3 e4 e5 e6 e7 f1 f2 f3 f4 f5 f6 f7
  refine ⟨?_, ?_, ?_, ?_, ?_, ?_, ?_⟩ <;>
    simp only [settleMarket, hw, f1, f2, f3, f4, f5, f6, f7,
      e1, e2, e3, e4, e5, e6, e7] <;>
    simp <;> ring

/-- Counterexample to C1 as stated: one market with trades and no
`winning_token` contributes -3 (not zero) to both total and hypothetical
P&L, and `BacktestResult` carries no unresolved count. -/
theorem claim_C1_counterexample :
    ((findMarket (((Backtest.init scaleOneParams).runTrades
          [tradeBuyUnresolved]).positions) 1).map MarketPosition.winning_token
        = some none)
    ∧ ((Backtest.init scaleOneParams).runTrades
        [tradeBuyUnresolved]).calculate_pnl.total_pnl = -3
    ∧ ((Backtest.init scaleOneParams).runTrades
        [tradeBuyUnresolved]).calculate_pnl.hypothetical_pnl = -3 := by
  refine ⟨?_, ?_, ?_⟩ <;>
    norm_num +decide [scaleOneParams, tradeBuyUnresolved, Backtest.init,
      Backtest.runTrades, Backtest.step, Backtest.process_trade, positionsStep,
      ensureMarket, findMarket, newMarket, updateMarketList, marketStep,
      tokenStep, mkLog, Backtest.calculate_pnl, marketAcc, settleMarket,
      settleSide, addCrypto, Position.tokens_held, none_eq_some_false]

/-- Witness for C1 (amended): the amended settlement equations evaluated on
a concrete unresolved market with one traded side. -/
theorem claim_C1_witness :
    (settleMarket unresolvedMarketEx).pnl
      = (unresolvedMarketEx.token1.sell_proceeds - unresolvedMarketEx.token1.cost_basis)
        + (unresolvedMarketEx.token2.sell_proceeds - unresolvedMarketEx.token2.cost_basis) :=
  (claim_C1 unresolvedMarketEx rfl (by norm_num [PosInv, unresolvedMarketEx])
    (by norm_num [PosInv, unresolvedMarketEx])).1

end Bidonly

namespace Bidonly

/-- C3: for every well-formed finalized market with `winning_token` set,
the settlement computes per side the spec formulas for actual and
hypothetical P&L (winner side redeeming held/bought tokens at $1, loser at
$0), market P&L being the sum over both sides, and the returned
`selling_edge` equals `total_pnl - hypothetical_pnl` exactly for any
engine state. -/
theorem claim_C3 (pos : MarketPosition) (w : String)
    (hw : pos.winning_token = some w)
    (h1 : PosInv pos.token1) (h2 : PosInv pos.token2) :
    (settleMarket pos).pnl
        = specActualPnl pos.winning_token "token1" pos.token1
          + specActualPnl pos.winning_token "token2" pos.token2
    ∧ (settleMarket pos).hypo
        = specHypoPnl pos.winning_token "token1" pos.token1
          + specHypoPnl pos.winning_token "token2" pos.token2
    ∧ ∀ b : Backtest,
        b.calculate_pnl.selling_edge
          = b.calculate_pnl.total_pnl - b.calculate_pnl.hypothetical_pnl := by
  obtain ⟨e1, e2, _⟩ :=
    settleSide_fields pos.winning_token "token1" pos.token1 {} h1
  obtain ⟨f1, f2, _⟩ :=
    settleSide_fields pos.winning_token "token2" pos.token2
      (settleSide pos.winning_token "token1" pos.token1 {}) h2
  refine ⟨?_, ?_, fun b => rfl⟩
  · rw [settleMarket, f1, e1]
    simp
  · rw [settleMarket, f2, e2]
    simp

/-- Witness for C3: Scenario B of the spec (100 bought at $0.30, 50 sold at
$0.60, `token1` wins): settlement matches the spec formulas and evaluates
to an actual P&L of 50 against a hypothetical P&L of 70. -/
theorem claim_C3_witness :
    ((settleMarket marketScenarioB).pnl
        = specActualPnl marketScenarioB.winning_token "token1" marketScenarioB.token1
          + specActualPnl marketScenarioB.winning_token "token2" marketScenarioB.token2)
    ∧ (settleMarket marketScenarioB).pnl = 50
    ∧ (settleMarket marketScenarioB).hypo = 70 := by
  have h := claim_C3 marketScenarioB "token1" rfl
    (by norm_num [PosInv, marketScenarioB]) (by norm_num [PosInv, marketScenarioB])
  refine ⟨h.1, ?_, ?_⟩ <;>
    norm_num +decide [settleMarket, settleSide, marketScenarioB, Position.tokens_held]

end Bidonly

namespace Bidonly

/-- C7 (amended): the adverse-selection ratio is computed as
`loser_held / winner_held` (with `held = bought - sold`) only under the
guard `loser_tokens_bought > 0 and winner_tokens_bought > 0` (otherwise it
is omitted); under that guard, a zero `winner_tokens_held` raises
`ZeroDivisionError` rather than reporting a sentinel. -/
theorem claim_C7 (r : BacktestResult) :
    (¬ (0 < r.loser_tokens_bought ∧ 0 < r.winner_tokens_bought) →
        adverse_selection r = Except.ok none)
    ∧ (0 < r.loser_tokens_bought → 0 < r.winner_tokens_bought →
        r.winner_tokens_bought - r.winner_tokens_sold ≠ 0 →
        adverse_selection r
          = Except.ok (some ((r.loser_tokens_bought - r.loser_tokens_sold)
              / (r.winner_tokens_bought - r.winner_tokens_sold))))
    ∧ (0 < r.loser_tokens_bought → 0 < r.winner_tokens_bought →
        r.winner_tokens_bought - r.winner_tokens_sold = 0 →
        adverse_selection r = Except.error "ZeroDivisionError") := by
  refine ⟨?_, ?_, ?_⟩
  · intro hng
    simp only [adverse_selection]
    rw [if_neg hng]
  · intro hl hwin hden
    simp only [adverse_selection, pyDivQ]
    rw [if_pos ⟨hl, hwin⟩, if_neg hden]
    rfl
  · intro hl hwin hden
    simp only [adverse_selection, pyDivQ]
    rw [if_pos ⟨hl, hwin⟩, if_pos hden]
    rfl

/-- Counterexample to C7 as stated: a reachable aggregate with
`winner_tokens_held == 0` (1 winner token bought, 1 sold) and positive
bought totals makes the ratio computation raise `ZeroDivisionError`
instead of reporting 0. -/
theorem claim_C7_counterexample :
    (((Backtest.init scaleOneParams).runTrades
          [tradeBuyWinner, tradeSellWinner, tradeBuyLoser]).calculate_pnl.winner_tokens_bought
        - ((Backtest.init scaleOneParams).runTrades
          [tradeBuyWinner, tradeSellWinner, tradeBuyLoser]).calculate_pnl.winner_tokens_sold
        = 0)
    ∧ adverse_selection (((Backtest.init scaleOneParams).runTrades
          [tradeBuyWinner, tradeSellWinner, tradeBuyLoser]).calculate_pnl)
        = Except.error "ZeroDivisionError" := by
  refine ⟨?_, ?_⟩ <;>
    norm_num +decide [scaleOneParams, tradeBuyWinner, tradeSellWinner, tradeBuyLoser,
      Backtest.init, Backtest.runTrades, Backtest.step, Backtest.process_trade,
      positionsStep, ensureMarket, findMarket, newMarket, updateMarketList,
      marketStep, tokenStep, mkLog, Backtest.calculate_pnl, marketAcc, settleMarket,
      settleSide, addCrypto, Position.tokens_held, none_eq_some_false,
      adverse_selection, pyDivQ, min_def, Except.map]

/-- Witness for C7 (amended): on a result with both bought totals positive
and nonzero winner holdings the guarded ratio is returned. -/
theorem claim_C7_witness :
    adverse_selection resultEx
      = Except.ok (some ((resultEx.loser_tokens_bought - resultEx.loser_tokens_sold)
          / (resultEx.winner_tokens_bought - resultEx.winner_tokens_sold))) :=
  (claim_C7 resultEx).2.1 (by norm_num [resultEx]) (by norm_num [resultEx])
    (by norm_num [resultEx])

end Bidonly

namespace Bidonly

/-- C9 (amended): `calculate_pnl` does not mutate the engine, so calling it
twice with no intervening trades yields identical results; and it is total
on all states: a position with negative `tokens_held` is not rejected by
any assertion but settled arithmetically with the usual formula (its
resolution value simply goes negative on a winning side). -/
theorem claim_C9 :
    (∀ b : Backtest,
        (b.calculate_pnl_call.2).calculate_pnl_call.1 = b.calculate_pnl_call.1
        ∧ b.calculate_pnl_call.2 = b)
    ∧ (∀ (wt : Option String) (side : String) (tp : Position) (acc : SideTotals),
        tp.token_amount ≠ 0 →
        (settleSide wt side tp acc).pnl = acc.pnl + specActualPnl wt side tp) := by
  refine ⟨fun b => ⟨rfl, rfl⟩, ?_⟩
  intro wt side tp acc h0
  simp only [settleSide, if_neg h0, specActualPnl]
  split_ifs with hw <;> simp

/-- Counterexample to C9 as stated: a market position with negative
`tokens_held` is settled to a concrete numeric `BacktestResult` — no error
is raised and no settlement is aborted. -/
theorem claim_C9_counterexample :
    negHeldMarket.token1.tokens_held < 0
    ∧ negHeldBacktest.calculate_pnl
        = { total_pnl := -1/2, hypothetical_pnl := 1/2, selling_edge := -1,
            total_volume := 3/2, num_markets := 1, num_trades := 0,
            winner_tokens_bought := 1, loser_tokens_bought := 0,
            winner_tokens_sold := 2, loser_tokens_sold := 0,
            pnl_by_crypto := [("BTC", -1/2)], winning_markets := 0,
            losing_markets := 1 } := by
  constructor
  · norm_num [negHeldMarket, Position.tokens_held]
  · norm_num +decide [negHeldBacktest, negHeldMarket, scaleOneParams,
      Backtest.calculate_pnl, marketAcc, settleMarket, settleSide, addCrypto,
      Position.tokens_held]

/-- Witness for C9 (amended): the arithmetic-settlement equation applied to
the concrete position with negative holdings. -/
theorem claim_C9_witness :
    (settleSide (some "token1") "token1" negHeldMarket.token1 {}).pnl
      = ({} : SideTotals).pnl + specActualPnl (some "token1") "token1" negHeldMarket.token1 :=
  claim_C9.2 (some "token1") "token1" negHeldMarket.token1 {}
    (by norm_num [negHeldMarket])

end Bidonly
